import Mathlib

/-!
Verification of the Lobster VM execution core (src/dev/src/vm.cpp) and the
AOT bytecode-to-C translator (src/dev/src/tocpp.cpp), via a shallow
embedding of the relevant data model and operations.

Conventions used throughout:
* machine cells (`Value`) are modelled as a tagged inductive; reference
  cells carry their runtime tag and an object id.  Reference *counts* are
  not part of a cell's value: `LTDECRTNIL` and friends change heap
  metadata, never the 8-byte cell payload, so decrement operations appear
  as events, not as cell mutations.
* the VM stack is a `List Value`; where a function manipulates the top of
  the stack the list head is the top of the stack, except in the error
  path where absolute offsets from the stack base matter and the list is
  indexed bottom-up with an explicit `sp : Int` offset (`sp = -1` empty).
* the globals array `vars` is a function `Nat → Value`.
* external collaborators that vm.cpp calls but that live outside the two
  source files (RefToString, Value::ToString, StructToString,
  to_string_hex, pool.pointer_is_in_allocator) are passed in as explicit
  function parameters, mirroring the spec's "external collaborators"
  scoping; the theorems hold for every choice of these functions.
-/

namespace Lobster

/-- Runtime base types of cells, from the type table (`ValueType` in the
interface vm.cpp consumes). Only the kinds the verified code paths
inspect are listed. -/
inductive BaseType where
  | V_NIL
  | V_INT
  | V_FLOAT
  | V_STRING
  | V_VECTOR
  | V_CLASS
  | V_STRUCT_R
  | V_STRUCT_S
  | V_RESOURCE
  | V_ANY
deriving DecidableEq

/-- An 8-byte VM cell. `Value()` (nil) is `nil`. A reference cell carries
its runtime type tag and an object identity. Float cells never occur in
the verified paths and are omitted. -/
inductive Value where
  | nil : Value
  | intV : Int → Value
  | refV : BaseType → Nat → Value
deriving DecidableEq

/-- The runtime type tag of a cell (`x.type` under RTT_ENABLED). -/
def valueType : Value → BaseType
  | Value.nil => BaseType.V_NIL
  | Value.intV _ => BaseType.V_INT
  | Value.refV t _ => t

/-- Pointwise update of the globals array: `vars[i] = x`. -/
def upd (v : Nat → Value) (i : Nat) (x : Value) : Nat → Value :=
  fun j => if j = i then x else v j

/-- A `TypeInfo` record as read from the type table: base kind, struct
index, length (cell count for classes/structs) and element type indices. -/
structure TypeInfo where
  t : BaseType
  structidx : Nat
  len : Nat
  elemtypes : List Nat
deriving DecidableEq

def defaultTypeInfo : TypeInfo := { t := BaseType.V_NIL, structidx := 0, len := 0, elemtypes := [] }

/-- IsStruct: struct-value or struct-ref kinds. -/
def IsStruct (t : BaseType) : Bool :=
  t = BaseType.V_STRUCT_R ∨ t = BaseType.V_STRUCT_S

/-- Modelled from the spec: `IsRefNil` of vmdata.h (not under src/) as
used by WorkerWrite's scalar-members check: a type is a
reference-or-nilable kind when it is one of the heap reference kinds or
nil, per the spec's "only scalar fields (no nested references)". -/
def IsRefNil (t : BaseType) : Bool :=
  match t with
  | BaseType.V_NIL | BaseType.V_STRING | BaseType.V_VECTOR | BaseType.V_CLASS
  | BaseType.V_STRUCT_R | BaseType.V_RESOURCE => true
  | _ => false

/-! ## Stack construction and growth (vm.cpp lines 23-30, 49, 384-402) -/

/-- `INITSTACKSIZE = 32 * 1024` cells (vm.cpp line 25). -/
def INITSTACKSIZE : Nat := 32 * 1024

/-- `DEFMAXSTACKSIZE = 512 * 1024` cells (vm.cpp line 27). -/
def DEFMAXSTACKSIZE : Nat := 512 * 1024

/-- `STACKMARGIN = 8 * 1024` cells (vm.cpp line 29). -/
def STACKMARGIN : Nat := 8 * 1024

structure StackState where
  stack : List Value
  stacksize : Nat
  maxstacksize : Nat
deriving DecidableEq

/-- VM construction (vm.cpp ctor): `maxstacksize(DEFMAXSTACKSIZE)` and
`stack = new Value[stacksize = INITSTACKSIZE]`.  Fresh C++ cells are
modelled as nil. -/
def vmNewStack : StackState :=
  { stack := List.replicate INITSTACKSIZE Value.nil
    stacksize := INITSTACKSIZE
    maxstacksize := DEFMAXSTACKSIZE }

/-- The stack-growth check at the top of `VM::FunIntro` (vm.cpp 388-402).
`spOff` is `sp - stack` (depth of the topmost used cell; -1 when empty).
On growth the size doubles and `sp - stack + 1` cells are copied into the
new buffer (whose remaining cells are fresh, modelled nil).  When the
current size has already reached `maxstacksize`, `SeriousError` raises
`StackOverflow` and, because `SeriousError` unwinds, the stack is not
grown. -/
def funIntroGrow (s : StackState) (spOff : Int) : Except String StackState :=
  if (s.stacksize : Int) - (STACKMARGIN : Int) < spOff then
    if s.maxstacksize ≤ s.stacksize then
      Except.error "stack overflow! (use set_max_stack_size() if needed)"
    else
      Except.ok { s with
        stacksize := s.stacksize * 2
        stack := s.stack.take (spOff + 1).toNat ++
          List.replicate (s.stacksize * 2 - (spOff + 1).toNat) Value.nil }
  else
    Except.ok s

/-! ## AOT vtable emission (tocpp.cpp lines 347-356) -/

/-- One emitted vtable array element: `fun_<id>` for a non-negative
function id, `0` for a sentinel gap. -/
def vtableEntry (id : Int) : String :=
  if 0 ≤ id then "fun_" ++ toString id else "0"

/-- The loop `for (auto id : *bcf->vtables())` appending one initializer
line per image vtable slot to the output buffer `sd`. -/
def vtableLines (vt : List Int) : String :=
  vt.foldl (fun sd id => sd ++ "    " ++ vtableEntry id ++ ",\n") ""

/-- The emitted initializer entries of the vtable array, in order: one
per image vtable slot, then the final `0` terminator
(`sd += "    0\n};\n";  // Make sure table is never empty.`). -/
def vtableEntriesEmitted (vt : List Int) : List String :=
  vt.foldl (fun acc id => acc ++ [vtableEntry id]) [] ++ ["0"]

/-- The full emitted vtable array text. -/
def vtablesSection (cpp : Bool) (vt : List Int) : String :=
  (if cpp then "\nstatic" else "\nextern ") ++
  " const fun_base_t vtables[] = \x7b\n" ++ vtableLines vt ++ "    0\n\x7d;\n"

/-! ## Workers / tuple space (vm.cpp lines 635-721) -/

inductive TraceMode where
  | OFF
  | ON
  | TAIL
deriving DecidableEq

/-- The per-class tuple queue (mutex and condition variable elided;
`tuples` is the guarded deque, front at the list head). -/
structure TupleTypeQ where
  tuples : List (List Value)
deriving DecidableEq

/-- The tuple space: alive flag plus one queue per UDT. -/
structure TupleSpaceS where
  alive : Bool
  tupletypes : List TupleTypeQ
deriving DecidableEq

/-- `new TupleSpace(bcf->udts()->size())`: alive, one empty queue per UDT. -/
def newTupleSpace (nudts : Nat) : TupleSpaceS :=
  { alive := true, tupletypes := List.replicate nudts { tuples := [] } }

/-- The subset of `VMArgs` relevant to worker construction:
the shared read-only program image, per-VM program args and trace mode. -/
structure VMArgsM where
  static_bytecode : List Int
  program_args : List String
  trace : TraceMode
deriving DecidableEq

/-- A worker VM as constructed by `StartWorkers`: its (copied) args, the
`is_worker` mark and the shared tuple space it points at. -/
structure WorkerVM where
  args : VMArgsM
  is_worker : Bool
  tuple_space : TupleSpaceS
deriving DecidableEq

/-- `VM::StartWorkers` (vm.cpp 635-670).  From a worker, or when a tuple
space already exists, a recoverable `Error` is raised (and unwinds, so
nothing below it runs).  Otherwise `numthreads = min(n, 256)` fresh VMs
are built from a copy of the parent args with `program_args` cleared and
trace OFF, each marked `is_worker` and pointed at the freshly allocated
tuple space.  (Thread spawn / EvalProgram execution is concurrency and is
outside the embedding; the constructed set of workers is what is
modelled.) -/
def startWorkers (parent : VMArgsM) (isWorker : Bool)
    (tuple_space : Option TupleSpaceS) (nudts : Nat) (n : Int) :
    Except String (TupleSpaceS × List WorkerVM) :=
  if isWorker then
    Except.error "workers can\x27t start more worker threads"
  else if tuple_space.isSome then
    Except.error "workers already running"
  else
    let numthreads := min n 256
    let space := newTupleSpace nudts
    Except.ok (space, (List.range numthreads.toNat).map (fun _ =>
      { args := { parent with program_args := [], trace := TraceMode.OFF }
        is_worker := true
        tuple_space := space }))

/-- A heap class instance as WorkerWrite sees it: its type-table index
and its inline field cells. -/
structure LObj where
  tti : Nat
  fields : List Value
deriving DecidableEq

/-- The buffer-building loop of `VM::WorkerWrite` (vm.cpp 688-694): for
each field, raise if its static element type is a reference kind,
otherwise copy the cell. -/
def workerWriteBuf (typetable : List TypeInfo) : List Nat → List Value → Except String (List Value)
  | [], _ => Except.ok []
  | e :: es, fs =>
    if IsRefNil (typetable.getD e defaultTypeInfo).t then
      Except.error "thread write: only scalar class members supported for now"
    else
      match workerWriteBuf typetable es fs.tail with
      | Except.error msg => Except.error msg
      | Except.ok b => Except.ok (fs.headD Value.nil :: b)

/-- `VM::WorkerWrite` (vm.cpp 682-701).  Returns the updated tuple space
(`none` when none exists).  The `if (!tuple_space) return;` short-circuit
comes first; only then are the nil / non-class / non-scalar checks made.
On success the copied buffer is appended to the back of the queue for the
class's structidx. -/
def workerWrite (typetable : List TypeInfo) (ts : Option TupleSpaceS)
    (ref : Option LObj) : Except String (Option TupleSpaceS) :=
  match ts with
  | none => Except.ok none
  | some space =>
    match ref with
    | none => Except.error "thread write: nil reference"
    | some st =>
      let ti := typetable.getD st.tti defaultTypeInfo
      if ti.t ≠ BaseType.V_CLASS then
        Except.error "thread write: must be a class"
      else
        match workerWriteBuf typetable (ti.elemtypes.take ti.len) st.fields with
        | Except.error msg => Except.error msg
        | Except.ok buf =>
          let tt := space.tupletypes.getD ti.structidx { tuples := [] }
          Except.ok (some { space with
            tupletypes := space.tupletypes.set ti.structidx { tuples := tt.tuples ++ [buf] } })

/-- `VM::WorkerRead` (vm.cpp 703-721).  The condition-variable wait
terminates exactly when `!alive || !tuples.empty()`; this model describes
the state at wake-up (the theorems take the wake condition as a
hypothesis).  When a buffer is available it is popped and a new object is
constructed and initialized from its `ti.len` cells; otherwise (teardown)
nil is returned. -/
def workerRead (tti : TypeInfo) (ts : TupleSpaceS) :
    Except String (TupleSpaceS × Option (List Value)) :=
  if tti.t ≠ BaseType.V_CLASS then
    Except.error "thread read: must be a class type"
  else
    let tt := ts.tupletypes.getD tti.structidx { tuples := [] }
    match tt.tuples with
    | [] => Except.ok (ts, none)
    | buf :: rest =>
      Except.ok
        ({ ts with tupletypes := ts.tupletypes.set tti.structidx { tuples := rest } },
         some (buf.take tti.len))

end Lobster

namespace Lobster

/-! ## Theorems for claims C2, C9, C10, C5, C4 -/

theorem vtableEntriesEmitted_eq (vt : List Int) :
    vtableEntriesEmitted vt = vt.map vtableEntry ++ ["0"] := by
  unfold vtableEntriesEmitted
  have h : ∀ (l : List Int) (acc : List String),
      l.foldl (fun acc id => acc ++ [vtableEntry id]) acc = acc ++ l.map vtableEntry := by
    intro l
    induction l with
    | nil => intro acc; simp
    | cons a t ih => intro acc; simp [ih]
  rw [h]
  simp

/-- Claim C2: the stack is created once at VM construction with 32K
cells; on function entry, if remaining headroom is below the 8K-cell
margin the stack is doubled and existing cells are copied; if doubling
would exceed the maximum (default 512K) a StackOverflow serious error is
raised and the stack is not grown.  Conjuncts: (1)-(3) construction
sizes; (4) the code's grow test `sp - stack > stacksize - STACKMARGIN`
is exactly "headroom `stacksize - spOff` below the 8K margin"; (5) grow
path: doubled size, doubled buffer, existing cells copied; (6) overflow
path: error raised, no growth; (7) for every reachable stack size (32K
doubled k times) the code's `stacksize >= maxstacksize` test against the
default max coincides with "doubling would exceed the max". -/
theorem c2_stack_sizing :
    vmNewStack.stacksize = 32 * 1024 ∧
    vmNewStack.stack.length = 32 * 1024 ∧
    vmNewStack.maxstacksize = 512 * 1024 ∧
    (∀ (s : StackState) (spOff : Int),
      ((s.stacksize : Int) - (STACKMARGIN : Int) < spOff ↔
        (s.stacksize : Int) - spOff < (STACKMARGIN : Int))) ∧
    (∀ (s : StackState) (spOff : Int),
      (s.stacksize : Int) - (STACKMARGIN : Int) < spOff →
      s.stacksize < s.maxstacksize →
      0 ≤ spOff → spOff < (s.stacksize : Int) → s.stack.length = s.stacksize →
      ∃ s' : StackState, funIntroGrow s spOff = Except.ok s' ∧
        s'.stacksize = 2 * s.stacksize ∧
        s'.stack.length = 2 * s.stacksize ∧
        s'.stack.take (spOff + 1).toNat = s.stack.take (spOff + 1).toNat) ∧
    (∀ (s : StackState) (spOff : Int),
      (s.stacksize : Int) - (STACKMARGIN : Int) < spOff →
      s.maxstacksize ≤ s.stacksize →
      funIntroGrow s spOff =
        Except.error "stack overflow! (use set_max_stack_size() if needed)") ∧
    (∀ k : Nat,
      (DEFMAXSTACKSIZE ≤ INITSTACKSIZE * 2 ^ k ↔
        DEFMAXSTACKSIZE < 2 * (INITSTACKSIZE * 2 ^ k))) := by
  refine ⟨rfl, by
      rw [show vmNewStack.stack = List.replicate INITSTACKSIZE Value.nil from rfl,
        List.length_replicate]
      rfl, rfl, ?_, ?_, ?_, ?_⟩
  · intro s spOff
    omega
  · intro s spOff hcond hlt hsp0 hsplt hlen
    refine ⟨{ s with
        stacksize := s.stacksize * 2
        stack := s.stack.take (spOff + 1).toNat ++
          List.replicate (s.stacksize * 2 - (spOff + 1).toNat) Value.nil }, ?_, ?_, ?_, ?_⟩
    · unfold funIntroGrow
      rw [if_pos hcond, if_neg (by omega)]
    · show s.stacksize * 2 = 2 * s.stacksize
      omega
    · have htn : (spOff + 1).toNat ≤ s.stacksize := by omega
      simp only [List.length_append, List.length_take, List.length_replicate, hlen]
      omega
    · have htn : (spOff + 1).toNat ≤ s.stacksize := by omega
      show (List.take _ _ ++ _).take _ = _
      rw [List.take_append_of_le_length]
      · rw [List.take_take]
        simp
      · simp only [List.length_take, hlen]
        omega
  · intro s spOff hcond hge
    unfold funIntroGrow
    rw [if_pos hcond, if_pos (by omega)]
  · intro k
    constructor
    · intro h
      unfold DEFMAXSTACKSIZE INITSTACKSIZE at *
      omega
    · intro h
      unfold DEFMAXSTACKSIZE INITSTACKSIZE at *
      rcases Nat.lt_or_ge k 4 with hk | hk
      · interval_cases k <;> norm_num at h
      · have h16 : (16 : Nat) ≤ 2 ^ k := by
          calc (16 : Nat) = 2 ^ 4 := by norm_num
          _ ≤ 2 ^ k := Nat.pow_le_pow_right (by norm_num) hk
        omega

/-- Witness for C2 at concrete inputs: a freshly doubled-once stack of
64K cells that is full past the margin doubles again to 128K under the
default max. -/
theorem c2_stack_sizing_witness :
    ((((64 * 1024 : Nat) : Int) - (STACKMARGIN : Int) < (60000 : Int)) ∧
      (64 * 1024 : Nat) < DEFMAXSTACKSIZE ∧ (0 : Int) ≤ 60000 ∧
      (60000 : Int) < ((64 * 1024 : Nat) : Int) ∧
      (List.replicate (64 * 1024) Value.nil).length = 64 * 1024) ∧
    (∃ s' : StackState,
      funIntroGrow
        { stack := List.replicate (64 * 1024) Value.nil
          stacksize := 64 * 1024
          maxstacksize := DEFMAXSTACKSIZE } 60000 = Except.ok s' ∧
      s'.stacksize = 2 * (64 * 1024) ∧
      s'.stack.length = 2 * (64 * 1024) ∧
      s'.stack.take ((60000 : Int) + 1).toNat =
        (List.replicate (64 * 1024) Value.nil).take ((60000 : Int) + 1).toNat) := by
  have h1 : (((64 * 1024 : Nat) : Int) - (STACKMARGIN : Int) < (60000 : Int)) := by
    unfold STACKMARGIN; norm_num
  have h2 : (64 * 1024 : Nat) < DEFMAXSTACKSIZE := by unfold DEFMAXSTACKSIZE; norm_num
  have h5 : (List.replicate (64 * 1024) Value.nil).length = 64 * 1024 :=
    List.length_replicate (64 * 1024) Value.nil
  exact ⟨⟨h1, h2, by norm_num, by norm_num, h5⟩,
    c2_stack_sizing.2.2.2.2.1
      { stack := List.replicate (64 * 1024) Value.nil
        stacksize := 64 * 1024
        maxstacksize := DEFMAXSTACKSIZE } 60000 h1 h2 (by norm_num) (by norm_num) h5⟩

/-- Claim C9: the translator emits, in declared order, one vtable entry
per image slot (`fun_<id>` for a non-negative id, `0` for a gap),
followed by one final `0` terminator; the emitted array is never empty,
even for an image with zero vtable entries. -/
theorem c9_vtable_emission :
    (∀ vt : List Int, vtableEntriesEmitted vt = vt.map vtableEntry ++ ["0"]) ∧
    (∀ vt : List Int, (vtableEntriesEmitted vt).length = vt.length + 1) ∧
    (∀ vt : List Int, 0 < (vtableEntriesEmitted vt).length) ∧
    (∀ id : Int, 0 ≤ id → vtableEntry id = "fun_" ++ toString id) ∧
    (∀ id : Int, id < 0 → vtableEntry id = "0") ∧
    (vtableEntriesEmitted [] = ["0"]) ∧
    (∀ cpp vt, vtablesSection cpp vt =
      (if cpp then "\nstatic" else "\nextern ") ++
      " const fun_base_t vtables[] = \x7b\n" ++ vtableLines vt ++ "    0\n\x7d;\n") ∧
    (∀ (vt : List Int) (id : Int),
      vtableLines (vt ++ [id]) = vtableLines vt ++ ("    " ++ vtableEntry id ++ ",\n")) ∧
    (vtableLines [] = "") := by
  refine ⟨vtableEntriesEmitted_eq, ?_, ?_, ?_, ?_, by decide, fun _ _ => rfl, ?_, rfl⟩
  · intro vt
    rw [vtableEntriesEmitted_eq]
    simp
  · intro vt
    rw [vtableEntriesEmitted_eq]
    simp
  · intro id h
    simp [vtableEntry, h]
  · intro id h
    simp [vtableEntry]
    omega
  · intro vt id
    simp [vtableLines, List.foldl_append, String.append_assoc]

/-- Witness for C9's conditional conjuncts at concrete ids. -/
theorem c9_vtable_emission_witness :
    ((0 : Int) ≤ 7 ∧ vtableEntry 7 = "fun_" ++ toString (7 : Int)) ∧
    ((-1 : Int) < 0 ∧ vtableEntry (-1) = "0") :=
  ⟨⟨by decide, c9_vtable_emission.2.2.2.1 7 (by decide)⟩,
   ⟨by decide, c9_vtable_emission.2.2.2.2.1 (-1) (by decide)⟩⟩

/-- Claim C10: WorkerWrite with no tuple space returns immediately with
no error and no enqueue, even for a nil reference or a non-class
reference; the nil / non-class checks fire only when a tuple space
exists. -/
theorem c10_workerwrite_no_space :
    (∀ (tt : List TypeInfo) (ref : Option LObj),
      workerWrite tt none ref = Except.ok none) ∧
    (∀ tt : List TypeInfo, workerWrite tt none none = Except.ok none) ∧
    (∀ (tt : List TypeInfo) (space : TupleSpaceS),
      workerWrite tt (some space) none = Except.error "thread write: nil reference") ∧
    (∀ (tt : List TypeInfo) (space : TupleSpaceS) (st : LObj),
      (tt.getD st.tti defaultTypeInfo).t ≠ BaseType.V_CLASS →
      workerWrite tt (some space) (some st) =
        Except.error "thread write: must be a class") := by
  refine ⟨fun _ _ => rfl, fun _ => rfl, fun _ _ => rfl, ?_⟩
  intro tt space st h
  simp only [workerWrite]
  rw [if_pos h]

/-- Witness for C10's conditional conjunct: a non-class object write
with a tuple space present errors. -/
theorem c10_workerwrite_no_space_witness :
    (([] : List TypeInfo).getD 0 defaultTypeInfo).t ≠ BaseType.V_CLASS ∧
    workerWrite [] (some (newTupleSpace 1)) (some { tti := 0, fields := [] }) =
      Except.error "thread write: must be a class" :=
  ⟨by decide,
   c10_workerwrite_no_space.2.2.2 [] (newTupleSpace 1) { tti := 0, fields := [] } (by decide)⟩

/-- Claim C5: StartWorkers errors (recoverably) from a worker VM and on
double start; otherwise it allocates a fresh tuple space and constructs
min(n, 256) fresh worker VMs, each marked is_worker, sharing the program
image and the new tuple space, with trace off and no program args. -/
theorem c5_start_workers :
    (∀ (p : VMArgsM) (ts : Option TupleSpaceS) (nudts : Nat) (n : Int),
      startWorkers p true ts nudts n =
        Except.error "workers can\x27t start more worker threads") ∧
    (∀ (p : VMArgsM) (s : TupleSpaceS) (nudts : Nat) (n : Int),
      startWorkers p false (some s) nudts n = Except.error "workers already running") ∧
    (∀ (p : VMArgsM) (nudts : Nat) (n : Int), 0 ≤ n →
      ∃ ws : List WorkerVM,
        startWorkers p false none nudts n = Except.ok (newTupleSpace nudts, ws) ∧
        (ws.length : Int) = min n 256 ∧
        ∀ w ∈ ws,
          w.is_worker = true ∧
          w.tuple_space = newTupleSpace nudts ∧
          w.args.static_bytecode = p.static_bytecode ∧
          w.args.program_args = [] ∧
          w.args.trace = TraceMode.OFF) := by
  refine ⟨fun _ _ _ _ => rfl, fun _ _ _ _ => rfl, ?_⟩
  intro p nudts n hn
  refine ⟨_, rfl, ?_, ?_⟩
  · simp only [List.length_map, List.length_range]
    omega
  · intro w hw
    simp only [List.mem_map] at hw
    obtain ⟨i, _, hww⟩ := hw
    subst hww
    exact ⟨rfl, rfl, rfl, rfl, rfl⟩

/-- Witness for C5: starting 3 workers from a non-worker VM with no
existing tuple space yields exactly 3 workers. -/
theorem c5_start_workers_witness :
    (0 : Int) ≤ 3 ∧
    ∃ ws : List WorkerVM,
      startWorkers { static_bytecode := [1, 2], program_args := ["x"], trace := TraceMode.TAIL }
          false none 2 3 = Except.ok (newTupleSpace 2, ws) ∧
      (ws.length : Int) = min (3 : Int) 256 ∧
      ∀ w ∈ ws,
        w.is_worker = true ∧
        w.tuple_space = newTupleSpace 2 ∧
        w.args.static_bytecode = [1, 2] ∧
        w.args.program_args = [] ∧
        w.args.trace = TraceMode.OFF :=
  ⟨by decide,
   c5_start_workers.2.2 { static_bytecode := [1, 2], program_args := ["x"], trace := TraceMode.TAIL }
     2 3 (by decide)⟩

/-- Claim C4: WorkerRead raises a recoverable error for a non-class
type; otherwise, once the wait on the class's queue terminates (a buffer
is available, or teardown has set alive false and the queue is empty),
it returns a newly constructed object initialized from the buffer's
cells, popping the queue, or nil respectively. -/
theorem c4_worker_read :
    (∀ (ti : TypeInfo) (ts : TupleSpaceS), ti.t ≠ BaseType.V_CLASS →
      workerRead ti ts = Except.error "thread read: must be a class type") ∧
    (∀ (ti : TypeInfo) (ts : TupleSpaceS) (buf : List Value) (rest : List (List Value)),
      ti.t = BaseType.V_CLASS →
      (ts.tupletypes.getD ti.structidx { tuples := [] }).tuples = buf :: rest →
      workerRead ti ts = Except.ok
        ({ ts with tupletypes := ts.tupletypes.set ti.structidx { tuples := rest } },
         some (buf.take ti.len))) ∧
    (∀ (ti : TypeInfo) (ts : TupleSpaceS),
      ti.t = BaseType.V_CLASS →
      ts.alive = false →
      (ts.tupletypes.getD ti.structidx { tuples := [] }).tuples = [] →
      workerRead ti ts = Except.ok (ts, none)) := by
  refine ⟨?_, ?_, ?_⟩
  · intro ti ts h
    simp only [workerRead]
    rw [if_pos h]
  · intro ti ts buf rest hcls hq
    simp only [workerRead]
    rw [if_neg (by simp [hcls]), hq]
  · intro ti ts hcls _ hq
    simp only [workerRead]
    rw [if_neg (by simp [hcls]), hq]

/-- Witness for C4: reading a class type from a queue holding one
2-cell tuple returns that tuple as the new object's cells. -/
theorem c4_worker_read_witness :
    (({ t := BaseType.V_CLASS, structidx := 0, len := 2, elemtypes := [1, 1] } : TypeInfo).t =
        BaseType.V_CLASS ∧
      (({ alive := true,
          tupletypes := [{ tuples := [[Value.intV 4, Value.intV 5]] }] } : TupleSpaceS).tupletypes.getD
            0 { tuples := [] }).tuples = [Value.intV 4, Value.intV 5] :: []) ∧
    workerRead { t := BaseType.V_CLASS, structidx := 0, len := 2, elemtypes := [1, 1] }
        { alive := true, tupletypes := [{ tuples := [[Value.intV 4, Value.intV 5]] }] } =
      Except.ok
        ({ alive := true, tupletypes := [{ tuples := [] }] },
         some [Value.intV 4, Value.intV 5]) := by
  refine ⟨⟨rfl, by decide⟩, ?_⟩
  have h := c4_worker_read.2.1
    { t := BaseType.V_CLASS, structidx := 0, len := 2, elemtypes := [1, 1] }
    { alive := true, tupletypes := [{ tuples := [[Value.intV 4, Value.intV 5]] }] }
    [Value.intV 4, Value.intV 5] [] rfl (by decide)
  simpa using h

end Lobster

namespace Lobster

/-! ## Function entry/exit (vm.cpp FunIntro 384-423, FunOut 425-459) -/

/-- A function header as FunIntro/FunOut read it from the words at
`funstart`: function id, arg variable indices, def variable indices,
keep-slot count, owned variable indices. -/
structure FunHeader where
  funid : Int
  args : List Nat
  defs : List Nat
  nkeep : Nat
  owned : List Nat
deriving DecidableEq

/-- The sequential displace loops of FunIntro.  `stash ids xs v`
performs, for each position i in order, `old = vars[ids[i]];
vars[ids[i]] = xs[i]` and collects the displaced old values in
positional order.  With `xs` the incoming argument cells this is the
arg-swap loop (`swap(vars[ip[i]], *(sp - nargs + i + 1))`, the old value
landing in the arg's stack slot); with `xs` all nil it is the def-save
loop (`Push(sp, vars[varidx]); vars[varidx] = Value();`). -/
def stash : List Nat → List Value → (Nat → Value) → ((Nat → Value) × List Value)
  | [], _, v => (v, [])
  | _ :: _, [], v => (v, [])
  | a :: tl, x :: xs, v =>
    let old := v a
    let r := stash tl xs (upd v a x)
    (r.1, old :: r.2)

/-- `VM::FunIntro` after the stack-growth check (the growth itself is
`funIntroGrow`; it only copies cells, so it is identity on contents):
swap each arg global with its incoming positional stack cell, push each
def global and clear it to nil, push nkeepvars nil keep slots.  The list
head is the stack top; the incoming positional args are the top `nargs`
cells with arg 0 deepest, so the positional view of the top block is its
reverse. -/
def funIntro (h : FunHeader) (vars : Nat → Value) (stack : List Value) :
    (Nat → Value) × List Value :=
  let nargs := h.args.length
  let argvals := (stack.take nargs).reverse
  let r1 := stash h.args argvals vars
  let r2 := stash h.defs (List.replicate h.defs.length Value.nil) r1.1
  (r2.1,
   List.replicate h.nkeep Value.nil ++ r2.2.reverse ++ r1.2.reverse ++ stack.drop nargs)

/-- Observable actions of the FunOut epilogue, in execution order. -/
inductive OutEvent where
  | decKeep : Value → OutEvent
  | decOwned : Nat → OutEvent
  | restoreDef : Nat → OutEvent
  | restoreArg : Nat → OutEvent
  | popFrame : OutEvent
  | slideRets : Nat → OutEvent
deriving DecidableEq

/-- The keep-slot epilogue loop: `for (i < nkeepvars) Pop(sp).LTDECRTNIL`.
Decrements touch heap refcounts, not cell values, so they are events. -/
def popDecKeeps : Nat → List Value → (List Value × List OutEvent)
  | 0, stk => (stk, [])
  | n + 1, stk =>
    let r := popDecKeeps n stk.tail
    (r.1, OutEvent.decKeep (stk.headD Value.nil) :: r.2)

/-- The owned-vars loop: `for (i < ownedvars) vars[*fip++].LTDECRTNIL`. -/
def decOwnedEvents : List Nat → List OutEvent
  | [] => []
  | i :: rest => OutEvent.decOwned i :: decOwnedEvents rest

/-- The pop-back loops `while (n--) { i = *--list; vars[i] = Pop(sp); }`:
the header list is walked backwards, so the index list is supplied
already reversed; each step pops the stack top into the global. -/
def popRestore (ev : Nat → OutEvent) :
    List Nat → List Value → (Nat → Value) → ((Nat → Value) × List Value × List OutEvent)
  | [], stk, v => (v, stk, [])
  | i :: rest, stk, v =>
    let r := popRestore ev rest stk.tail (upd v i (stk.headD Value.nil))
    (r.1, r.2.1, ev i :: r.2.2)

/-- `VM::FunOut`: slide the `nrv` return cells out, pop and decrement
each keep slot, decrement each listed owned var, pop defs then args back
into the globals in reverse header order, discard the frame, then place
the return cells on the caller's stack top.  Returns the final globals,
the final stack, and the ordered event trace. -/
def funOut (h : FunHeader) (nrv : Nat) (vars : Nat → Value) (stack : List Value) :
    (Nat → Value) × List Value × List OutEvent :=
  let rets := stack.take nrv
  let s1 := stack.drop nrv
  let k := popDecKeeps h.nkeep s1
  let evO := decOwnedEvents h.owned
  let rd := popRestore OutEvent.restoreDef h.defs.reverse k.1 vars
  let ra := popRestore OutEvent.restoreArg h.args.reverse rd.2.1 rd.1
  (ra.1, rets ++ ra.2.1,
   k.2 ++ evO ++ rd.2.2 ++ ra.2.2 ++ [OutEvent.popFrame, OutEvent.slideRets nrv])

theorem stash_length (ids : List Nat) (xs : List Value) (v : Nat → Value)
    (h : ids.length ≤ xs.length) : (stash ids xs v).2.length = ids.length := by
  induction ids generalizing xs v with
  | nil => rfl
  | cons a tl ih =>
    cases xs with
    | nil => simp at h
    | cons x xtl =>
      simp only [stash, List.length_cons]
      rw [ih xtl (upd v a x) (by simpa using h)]

theorem stash_fst_notMem (ids : List Nat) (xs : List Value) (v : Nat → Value)
    (i : Nat) (h : i ∉ ids) : (stash ids xs v).1 i = v i := by
  induction ids generalizing xs v with
  | nil => rfl
  | cons a tl ih =>
    cases xs with
    | nil => rfl
    | cons x xtl =>
      simp only [stash]
      rw [ih xtl (upd v a x) (by simp at h; exact h.2)]
      simp only [upd]
      rw [if_neg (by simp at h; exact h.1)]

theorem popRestore_events (ev : Nat → OutEvent) (ids : List Nat) (stk : List Value)
    (v : Nat → Value) : (popRestore ev ids stk v).2.2 = ids.map ev := by
  induction ids generalizing stk v with
  | nil => rfl
  | cons a tl ih =>
    simp only [popRestore, List.map_cons]
    rw [ih]

theorem drop_tail_eq {α : Type} (n : Nat) (l : List α) : l.tail.drop n = l.drop (n + 1) := by
  cases l with
  | nil => simp
  | cons b t => rfl

theorem popRestore_stack (ev : Nat → OutEvent) (ids : List Nat) (stk : List Value)
    (v : Nat → Value) : (popRestore ev ids stk v).2.1 = stk.drop ids.length := by
  induction ids generalizing stk v with
  | nil => rfl
  | cons a tl ih =>
    simp only [popRestore, List.length_cons]
    rw [ih, drop_tail_eq]

theorem popRestore_fst_append (ev : Nat → OutEvent) (l1 l2 : List Nat) (stk : List Value)
    (v : Nat → Value) :
    (popRestore ev (l1 ++ l2) stk v).1 =
      (popRestore ev l2 (stk.drop l1.length) (popRestore ev l1 stk v).1).1 := by
  induction l1 generalizing stk v with
  | nil => simp [popRestore]
  | cons a tl ih =>
    simp only [List.cons_append, popRestore, List.length_cons, List.append_eq]
    rw [ih, drop_tail_eq]

theorem popRestore_fst_notMem (ev : Nat → OutEvent) (ids : List Nat) (stk : List Value)
    (v : Nat → Value) (i : Nat) (h : i ∉ ids) :
    (popRestore ev ids stk v).1 i = v i := by
  induction ids generalizing stk v with
  | nil => rfl
  | cons a tl ih =>
    simp only [popRestore]
    rw [ih _ _ (by simp at h; exact h.2)]
    simp only [upd]
    rw [if_neg (by simp at h; exact h.1)]

/-- Key inversion: restoring (in reverse order) from the stack cells the
stash loop displaced reconstitutes exactly the pre-stash globals on the
stashed indices and leaves all other globals as the intermediate state
left them; the saved block is consumed exactly. -/
theorem stash_restore (ev : Nat → OutEvent) (ids : List Nat) (xs : List Value)
    (v w : Nat → Value) (rest : List Value) (hlen : ids.length ≤ xs.length) :
    (∀ i ∈ ids,
      (popRestore ev ids.reverse ((stash ids xs v).2.reverse ++ rest) w).1 i = v i) ∧
    (∀ i, i ∉ ids →
      (popRestore ev ids.reverse ((stash ids xs v).2.reverse ++ rest) w).1 i = w i) ∧
    (popRestore ev ids.reverse ((stash ids xs v).2.reverse ++ rest) w).2.1 = rest := by
  induction ids generalizing xs v w rest with
  | nil =>
    refine ⟨by simp, fun i _ => rfl, rfl⟩
  | cons a tl ih =>
    cases xs with
    | nil => simp at hlen
    | cons x xtl =>
      have hlen' : tl.length ≤ xtl.length := by simpa using hlen
      have hsv : (stash tl xtl (upd v a x)).2.length = tl.length :=
        stash_length tl xtl (upd v a x) hlen'
      have hstk :
          ((stash (a :: tl) (x :: xtl) v).2.reverse ++ rest) =
            (stash tl xtl (upd v a x)).2.reverse ++ (v a :: rest) := by
        simp [stash]
      have hrev : (a :: tl).reverse = tl.reverse ++ [a] := by simp
      have key := ih xtl (upd v a x) w (v a :: rest) hlen'
      have hdrop :
          (((stash tl xtl (upd v a x)).2.reverse ++ (v a :: rest)).drop tl.reverse.length) =
            v a :: rest := by
        rw [List.length_reverse, ← hsv, ← List.length_reverse ((stash tl xtl (upd v a x)).2)]
        exact List.drop_left _ _
      have happ :
          (popRestore ev ((a :: tl).reverse)
              ((stash (a :: tl) (x :: xtl) v).2.reverse ++ rest) w).1 =
            (popRestore ev [a] (v a :: rest)
              (popRestore ev tl.reverse
                ((stash tl xtl (upd v a x)).2.reverse ++ (v a :: rest)) w).1).1 := by
        rw [hstk, hrev, popRestore_fst_append, hdrop]
      have happ2 :
          (popRestore ev ((a :: tl).reverse)
              ((stash (a :: tl) (x :: xtl) v).2.reverse ++ rest) w).2.1 = rest := by
        rw [hstk, hrev, popRestore_stack]
        have : (tl.reverse ++ [a]).length = tl.length + 1 := by simp
        rw [this, ← hsv]
        have hlist :
            (stash tl xtl (upd v a x)).2.reverse ++ (v a :: rest) =
              ((stash tl xtl (upd v a x)).2.reverse ++ [v a]) ++ rest := by
          simp
        rw [hlist]
        have hlen2 : ((stash tl xtl (upd v a x)).2.reverse ++ [v a]).length =
            (stash tl xtl (upd v a x)).2.length + 1 := by simp
        rw [← hlen2]
        exact List.drop_left _ _
      refine ⟨?_, ?_, happ2⟩
      · intro i hi
        rw [happ]
        simp only [popRestore, List.headD, upd]
        rcases List.mem_cons.mp hi with hia | hitl
        · subst hia
          simp
        · by_cases hia : i = a
          · subst hia
            simp
          · rw [if_neg hia]
            rw [key.1 i hitl]
            simp only [upd]
            rw [if_neg hia]
      · intro i hi
        have hia : i ≠ a := by simp at hi; exact fun hh => hi.1 hh
        have hitl : i ∉ tl := by simp at hi; exact hi.2
        rw [happ]
        simp only [popRestore, List.headD, upd]
        rw [if_neg hia]
        exact key.2.1 i hitl

theorem popDecKeeps_stack (n : Nat) (stk : List Value) :
    (popDecKeeps n stk).1 = stk.drop n := by
  induction n generalizing stk with
  | zero => rfl
  | succ m ih =>
    simp only [popDecKeeps]
    rw [ih, drop_tail_eq]

theorem popDecKeeps_events (n : Nat) (stk : List Value) (h : n ≤ stk.length) :
    (popDecKeeps n stk).2 = (stk.take n).map OutEvent.decKeep := by
  induction n generalizing stk with
  | zero => simp [popDecKeeps]
  | succ m ih =>
    cases stk with
    | nil => simp at h
    | cons b t =>
      simp only [popDecKeeps, List.take_succ_cons, List.map_cons, List.headD, List.tail]
      rw [ih t (by simpa using h)]

theorem decOwnedEvents_eq (l : List Nat) : decOwnedEvents l = l.map OutEvent.decOwned := by
  induction l with
  | nil => rfl
  | cons a tl ih => simp only [decOwnedEvents, List.map_cons]; rw [ih]

end Lobster

namespace Lobster

/-- Claim C1: swap-restore identity.  For any header, any pre-call
globals and stack, run FunIntro; let the body change the globals
arbitrarily (`bodyVars`) and push any `rets` return cells while leaving
the frame's saved stack cells in place; then after FunOut every global
listed in the header's arg or def list holds the cell value it held
immediately before the call. -/
theorem c1_swap_restore (h : FunHeader) (vars0 bodyVars : Nat → Value)
    (stack0 rets : List Value) (hlen : h.args.length ≤ stack0.length) :
    ∀ i, i ∈ h.args ∨ i ∈ h.defs →
      (funOut h rets.length bodyVars (rets ++ (funIntro h vars0 stack0).2)).1 i = vars0 i := by
  intro i hi
  have hargvals : ((stack0.take h.args.length).reverse).length = h.args.length := by
    simp only [List.length_reverse, List.length_take]
    omega
  have hkeep : (popDecKeeps h.nkeep
        (List.drop rets.length (rets ++ (funIntro h vars0 stack0).2))).1 =
      (stash h.defs (List.replicate h.defs.length Value.nil)
          (stash h.args ((stack0.take h.args.length).reverse) vars0).1).2.reverse ++
        ((stash h.args ((stack0.take h.args.length).reverse) vars0).2.reverse ++
          stack0.drop h.args.length) := by
    rw [List.drop_left, popDecKeeps_stack]
    simp only [funIntro]
    have hdl := List.drop_left (List.replicate h.nkeep Value.nil)
      ((stash h.defs (List.replicate h.defs.length Value.nil)
          (stash h.args ((stack0.take h.args.length).reverse) vars0).1).2.reverse ++
        ((stash h.args ((stack0.take h.args.length).reverse) vars0).2.reverse ++
          stack0.drop h.args.length))
    rw [List.length_replicate] at hdl
    rw [← List.append_assoc, ← List.append_assoc] at hdl
    exact hdl
  have hD := stash_restore OutEvent.restoreDef h.defs
    (List.replicate h.defs.length Value.nil)
    (stash h.args ((stack0.take h.args.length).reverse) vars0).1 bodyVars
    ((stash h.args ((stack0.take h.args.length).reverse) vars0).2.reverse ++
      stack0.drop h.args.length) (by simp)
  have hA := stash_restore OutEvent.restoreArg h.args
    ((stack0.take h.args.length).reverse) vars0
    ((popRestore OutEvent.restoreDef h.defs.reverse
        ((stash h.defs (List.replicate h.defs.length Value.nil)
            (stash h.args ((stack0.take h.args.length).reverse) vars0).1).2.reverse ++
          ((stash h.args ((stack0.take h.args.length).reverse) vars0).2.reverse ++
            stack0.drop h.args.length)) bodyVars).1)
    (stack0.drop h.args.length) (by rw [hargvals])
  simp only [funOut]
  rw [hkeep, hD.2.2]
  by_cases hia : i ∈ h.args
  · exact hA.1 i hia
  · have hid : i ∈ h.defs := by
      rcases hi with hh | hh
      · exact absurd hh hia
      · exact hh
    rw [hA.2.1 i hia, hD.1 i hid]
    exact stash_fst_notMem h.args ((stack0.take h.args.length).reverse) vars0 i hia

/-- Witness for C1: `f` with one arg global (index 0), one def global
(index 1), one keep slot, one owned var; the body trashes the globals
and returns one value; both globals come back to their pre-call cells. -/
theorem c1_swap_restore_witness :
    (({ funid := 0, args := [0], defs := [1], nkeep := 1, owned := [2] } : FunHeader).args.length ≤
      ([Value.intV 10, Value.intV 20] : List Value).length) ∧
    (funOut { funid := 0, args := [0], defs := [1], nkeep := 1, owned := [2] }
        ([Value.intV 7] : List Value).length (fun _ => Value.intV 99)
        ([Value.intV 7] ++
          (funIntro { funid := 0, args := [0], defs := [1], nkeep := 1, owned := [2] }
            (fun j => Value.intV j) [Value.intV 10, Value.intV 20]).2)).1 1 =
      Value.intV 1 :=
  ⟨by decide,
   c1_swap_restore { funid := 0, args := [0], defs := [1], nkeep := 1, owned := [2] }
     (fun j => Value.intV j) (fun _ => Value.intV 99)
     [Value.intV 10, Value.intV 20] [Value.intV 7] (by decide) 1 (Or.inr (by decide))⟩

/-- Claim C3: the FunOut epilogue trace is exactly: one pop-and-decrement
per keep slot (top first), then one decrement per listed owned var, then
def restores in reverse header order, then arg restores in reverse header
order, then the frame discard, then the slide of the k return cells. -/
theorem c3_funout_epilogue (h : FunHeader) (nrv : Nat) (vars : Nat → Value)
    (stack : List Value) (hlen : nrv + h.nkeep ≤ stack.length) :
    (funOut h nrv vars stack).2.2 =
      ((stack.drop nrv).take h.nkeep).map OutEvent.decKeep ++
      h.owned.map OutEvent.decOwned ++
      h.defs.reverse.map OutEvent.restoreDef ++
      h.args.reverse.map OutEvent.restoreArg ++
      [OutEvent.popFrame, OutEvent.slideRets nrv] := by
  simp only [funOut]
  rw [popDecKeeps_events _ _ (by simp only [List.length_drop]; omega),
    decOwnedEvents_eq, popRestore_events, popRestore_events]

/-- Witness for C3 at a concrete frame: 1 return cell, 2 keep slots, one
owned var, one def, two args. -/
theorem c3_funout_epilogue_witness :
    (1 + ({ funid := 0, args := [4, 5], defs := [6], nkeep := 2, owned := [7] } : FunHeader).nkeep ≤
      ([Value.intV 1, Value.intV 2, Value.intV 3, Value.intV 4, Value.intV 5,
        Value.intV 6] : List Value).length) ∧
    (funOut { funid := 0, args := [4, 5], defs := [6], nkeep := 2, owned := [7] } 1
        (fun _ => Value.nil)
        [Value.intV 1, Value.intV 2, Value.intV 3, Value.intV 4, Value.intV 5,
          Value.intV 6]).2.2 =
      [OutEvent.decKeep (Value.intV 2), OutEvent.decKeep (Value.intV 3),
       OutEvent.decOwned 7, OutEvent.restoreDef 6, OutEvent.restoreArg 5,
       OutEvent.restoreArg 4, OutEvent.popFrame, OutEvent.slideRets 1] := by
  refine ⟨by decide, ?_⟩
  have := c3_funout_epilogue { funid := 0, args := [4, 5], defs := [6], nkeep := 2, owned := [7] }
    1 (fun _ => Value.nil)
    [Value.intV 1, Value.intV 2, Value.intV 3, Value.intV 4, Value.intV 5, Value.intV 6]
    (by decide)
  rw [this]
  decide

end Lobster

namespace Lobster

/-! ## Trace ring (vm.cpp TraceStream 527-534, CVM_Trace 732-750) -/

structure TraceState where
  trace_output : List String
  trace_ring_idx : Nat
deriving DecidableEq

/-- `VM::TraceStream` combined with the caller's write into the returned
stream (the caller clears the slot and appends its text, so the slot
ends up holding `content`): compute the mode's ring size (50 for TAIL,
1 otherwise), grow the buffer to that size if smaller, wrap the ring
index to 0 when it has reached the size, overwrite the slot, advance the
index. -/
def traceWrite (mode : TraceMode) (s : TraceState) (content : String) : TraceState :=
  let trace_size : Nat := if mode = TraceMode.TAIL then 50 else 1
  let out := if s.trace_output.length < trace_size
    then s.trace_output ++ List.replicate (trace_size - s.trace_output.length) ""
    else s.trace_output
  let idx := if s.trace_ring_idx = trace_size then 0 else s.trace_ring_idx
  { trace_output := out.set idx content, trace_ring_idx := idx + 1 }

/-- A sequence of traced ops from VM construction (empty buffer), each
under the VM's then-current trace mode. -/
def traceRun (calls : List (TraceMode × String)) : TraceState :=
  calls.foldl (fun s c => traceWrite c.1 s c.2) { trace_output := [], trace_ring_idx := 0 }

theorem set_getD_self {α : Type} (l : List α) (i : Nat) (x d : α) (h : i < l.length) :
    (l.set i x).getD i d = x := by
  induction l generalizing i with
  | nil => simp at h
  | cons a t ih =>
    cases i with
    | zero => rfl
    | succ m => exact ih m (by simpa using h)

theorem set_getD_ne {α : Type} (l : List α) (i j : Nat) (x d : α) (h : i ≠ j) :
    (l.set i x).getD j d = l.getD j d := by
  induction l generalizing i j with
  | nil => rfl
  | cons a t ih =>
    cases i with
    | zero =>
      cases j with
      | zero => exact absurd rfl h
      | succ mj => rfl
    | succ mi =>
      cases j with
      | zero => rfl
      | succ mj => exact ih mi mj (by omega)

theorem getD_append_left {α : Type} (l1 l2 : List α) (i : Nat) (d : α) (h : i < l1.length) :
    (l1 ++ l2).getD i d = l1.getD i d := by
  induction l1 generalizing i with
  | nil => simp at h
  | cons a t ih =>
    cases i with
    | zero => rfl
    | succ m => exact ih m (by simpa using h)

theorem getD_concat_length {α : Type} (l : List α) (x d : α) :
    (l ++ [x]).getD l.length d = x := by
  induction l with
  | nil => rfl
  | cons a t ih => exact ih

theorem traceWrite_tail_init (w : String) :
    traceWrite TraceMode.TAIL { trace_output := [], trace_ring_idx := 0 } w =
      { trace_output := (List.replicate 50 "").set 0 w, trace_ring_idx := 1 } := by
  simp [traceWrite]

theorem traceWrite_tail_full (s : TraceState) (w : String)
    (hlen : s.trace_output.length = 50) :
    traceWrite TraceMode.TAIL s w =
      { trace_output :=
          s.trace_output.set (if s.trace_ring_idx = 50 then 0 else s.trace_ring_idx) w
        trace_ring_idx := (if s.trace_ring_idx = 50 then 0 else s.trace_ring_idx) + 1 } := by
  simp [traceWrite, hlen]

theorem traceWrite_length_le (mode : TraceMode) (s : TraceState) (c : String)
    (hs : s.trace_output.length ≤ 50) : (traceWrite mode s c).trace_output.length ≤ 50 := by
  simp only [traceWrite, List.length_set]
  split
  · split
    · simp only [List.length_append, List.length_replicate]
      omega
    · exact hs
  · split
    · simp only [List.length_append, List.length_replicate]
      omega
    · exact hs

/-- Fresh-start TAIL-mode invariant: after `ws` TAIL-mode writes the
buffer holds 50 slots (once nonempty), the ring index is
`(n-1) % 50 + 1`, and slot `i % 50` holds write `i` for each of the last
50 writes. -/
theorem traceRun_tail_invariant (ws : List String) :
    (ws ≠ [] →
      (traceRun (ws.map (fun w => (TraceMode.TAIL, w)))).trace_output.length = 50 ∧
      (traceRun (ws.map (fun w => (TraceMode.TAIL, w)))).trace_ring_idx =
        (ws.length - 1) % 50 + 1) ∧
    (∀ i, i < ws.length → ws.length ≤ i + 50 →
      (traceRun (ws.map (fun w => (TraceMode.TAIL, w)))).trace_output.getD (i % 50) "" =
        ws.getD i "") := by
  induction ws using List.reverseRecOn with
  | nil =>
    refine ⟨fun hc => absurd rfl hc, ?_⟩
    intro i hi
    simp at hi
  | append_singleton ws w ih =>
    have hstep : traceRun ((ws ++ [w]).map (fun w => (TraceMode.TAIL, w))) =
        traceWrite TraceMode.TAIL (traceRun (ws.map (fun w => (TraceMode.TAIL, w)))) w := by
      simp only [List.map_append, List.map_cons, List.map_nil, traceRun, List.foldl_append,
        List.foldl_cons, List.foldl_nil]
    by_cases hws : ws = []
    · subst hws
      simp only [List.nil_append] at hstep ⊢
      rw [show traceRun ([w].map (fun w => (TraceMode.TAIL, w))) =
            traceWrite TraceMode.TAIL { trace_output := [], trace_ring_idx := 0 } w from rfl,
        traceWrite_tail_init]
      refine ⟨fun _ => ⟨?_, rfl⟩, ?_⟩
      · rw [List.length_set, List.length_replicate]
      · intro i hi hle
        simp only [List.length_cons, List.length_nil] at hi
        have hi0 : i = 0 := by omega
        subst hi0
        rw [Nat.zero_mod, set_getD_self _ _ _ _ (by rw [List.length_replicate]; omega)]
        rfl
    · obtain ⟨hlen, hidx⟩ := ih.1 hws
      have hn1 : 1 ≤ ws.length := by
        cases ws with
        | nil => exact absurd rfl hws
        | cons a t => simp
      have hwrap : (if (traceRun (ws.map (fun w => (TraceMode.TAIL, w)))).trace_ring_idx = 50
          then 0 else (traceRun (ws.map (fun w => (TraceMode.TAIL, w)))).trace_ring_idx) =
          ws.length % 50 := by
        rw [hidx]
        split <;> omega
      rw [hstep, traceWrite_tail_full _ _ hlen, hwrap]
      constructor
      · intro _
        constructor
        · rw [List.length_set, hlen]
        · simp only [List.length_append, List.length_cons, List.length_nil]
          omega
      · intro i hi hle
        simp only [List.length_append, List.length_cons, List.length_nil] at hi hle
        by_cases hieq : i = ws.length
        · subst hieq
          rw [set_getD_self _ _ _ _ (by rw [hlen]; omega), getD_concat_length]
        · have hilt : i < ws.length := by omega
          rw [set_getD_ne _ _ _ _ _ (by omega), getD_append_left _ _ _ _ hilt]
          exact ih.2 i hilt (by omega)

/-- The buffer never exceeds 50 slots, whatever mix of modes occurs. -/
theorem traceRun_length_le (calls : List (TraceMode × String)) :
    (traceRun calls).trace_output.length ≤ 50 := by
  suffices hgen : ∀ (cs : List (TraceMode × String)) (s : TraceState),
      s.trace_output.length ≤ 50 →
      (cs.foldl (fun s c => traceWrite c.1 s c.2) s).trace_output.length ≤ 50 by
    exact hgen calls { trace_output := [], trace_ring_idx := 0 } (by simp)
  intro cs
  induction cs with
  | nil => intro s hs; exact hs
  | cons c tl ih => intro s hs; exact ih _ (traceWrite_length_le c.1 s c.2 hs)

/-- ON-mode runs from a fresh buffer keep exactly one entry, the last
write, with the ring index back at 1 (each call overwrites slot 0). -/
theorem traceRun_on_only (ws : List String) : ∀ w : String,
    traceRun ((ws ++ [w]).map (fun x => (TraceMode.ON, x))) =
      { trace_output := [w], trace_ring_idx := 1 } := by
  induction ws using List.reverseRecOn with
  | nil =>
    intro w
    simp [traceRun, traceWrite]
  | append_singleton ws w' ih =>
    intro w
    have hstep : traceRun ((ws ++ [w'] ++ [w]).map (fun x => (TraceMode.ON, x))) =
        traceWrite TraceMode.ON (traceRun ((ws ++ [w']).map (fun x => (TraceMode.ON, x)))) w := by
      simp only [List.map_append, List.map_cons, List.map_nil, traceRun, List.foldl_append,
        List.foldl_cons, List.foldl_nil]
    rw [hstep, ih w']
    simp [traceWrite]

/-- Claim C6 counterexample: the claim's ON-mode half fails once a TAIL
call has enlarged the ring.  After the call sequence TAIL("a"), ON("b"),
the buffer holds 50 entries, not exactly one, because TraceStream only
ever grows `trace_output` (`if (trace_output.size() < trace_size)
resize`), it never shrinks it back to 1. -/
theorem c6_trace_ring_counterexample :
    (traceRun [(TraceMode.TAIL, "a"), (TraceMode.ON, "b")]).trace_output.length = 50 ∧
    ¬ (traceRun [(TraceMode.TAIL, "a"), (TraceMode.ON, "b")]).trace_output.length = 1 := by
  constructor
  · decide
  · decide

/-- Claim C6 as amended: (1) the trace ring never exceeds 50 entries
under any mode mix; (2) in TAIL mode from a fresh buffer the ring holds
exactly 50 slots, the index advancing cyclically; (3) slot `i % 50`
retains write `i` for each of the most recent 50 writes; (4) the ring
index wraps to slot 0 when it has reached 50 (the stored index becomes
1); (5) in ON mode *starting from a fresh buffer* the buffer holds
exactly one entry that each call overwrites. -/
theorem c6_trace_ring_amended :
    (∀ calls : List (TraceMode × String), (traceRun calls).trace_output.length ≤ 50) ∧
    (∀ ws : List String, ws ≠ [] →
      (traceRun (ws.map (fun w => (TraceMode.TAIL, w)))).trace_output.length = 50 ∧
      (traceRun (ws.map (fun w => (TraceMode.TAIL, w)))).trace_ring_idx =
        (ws.length - 1) % 50 + 1) ∧
    (∀ (ws : List String) (i : Nat), i < ws.length → ws.length ≤ i + 50 →
      (traceRun (ws.map (fun w => (TraceMode.TAIL, w)))).trace_output.getD (i % 50) "" =
        ws.getD i "") ∧
    (∀ (s : TraceState) (c : String), s.trace_output.length = 50 → s.trace_ring_idx = 50 →
      traceWrite TraceMode.TAIL s c =
        { trace_output := s.trace_output.set 0 c, trace_ring_idx := 1 }) ∧
    (∀ (ws : List String) (w : String),
      traceRun ((ws ++ [w]).map (fun x => (TraceMode.ON, x))) =
        { trace_output := [w], trace_ring_idx := 1 }) := by
  refine ⟨traceRun_length_le, ?_, ?_, ?_, fun ws w => traceRun_on_only ws w⟩
  · intro ws hws
    exact (traceRun_tail_invariant ws).1 hws
  · intro ws i hi hle
    exact (traceRun_tail_invariant ws).2 i hi hle
  · intro s c hlen hidx
    rw [traceWrite_tail_full s c hlen, hidx]
    rfl

/-- Witness for C6 (amended) at concrete inputs: two TAIL writes land in
slots 0 and 1; a full ring at index 50 wraps to slot 0; a two-write ON
run keeps only the last write. -/
theorem c6_trace_ring_amended_witness :
    ((["x", "y"] : List String) ≠ [] ∧
      (traceRun ((["x", "y"] : List String).map (fun w => (TraceMode.TAIL, w)))).trace_output.length = 50 ∧
      (traceRun ((["x", "y"] : List String).map (fun w => (TraceMode.TAIL, w)))).trace_ring_idx =
        ((["x", "y"] : List String).length - 1) % 50 + 1) ∧
    ((1 : Nat) < 2 ∧ (2 : Nat) ≤ 1 + 50 ∧
      (traceRun ((["x", "y"] : List String).map (fun w => (TraceMode.TAIL, w)))).trace_output.getD
          (1 % 50) "" = (["x", "y"] : List String).getD 1 "") ∧
    (({ trace_output := List.replicate 50 "", trace_ring_idx := 50 } : TraceState).trace_output.length = 50 ∧
      traceWrite TraceMode.TAIL { trace_output := List.replicate 50 "", trace_ring_idx := 50 } "z" =
        { trace_output := (List.replicate 50 "").set 0 "z", trace_ring_idx := 1 }) :=
  ⟨⟨by decide, c6_trace_ring_amended.2.1 ["x", "y"] (by decide)⟩,
   ⟨by decide, by decide, c6_trace_ring_amended.2.2.1 ["x", "y"] 1 (by decide) (by decide)⟩,
   ⟨by rw [List.length_replicate],
    c6_trace_ring_amended.2.2.2.1 { trace_output := List.replicate 50 "", trace_ring_idx := 50 } "z"
      (by rw [List.length_replicate]) rfl⟩⟩

end Lobster

namespace Lobster

/-! ## Error path (vm.cpp ErrorBase 253-268, Error 272-338, DumpVar
352-372, IDXErr 579-584) -/

/-- A specialized-identifier record (`specidents` entry): its type-table
index and its identifier index. -/
structure SpecIdent where
  typeidx : Nat
  ididx : Nat
deriving DecidableEq

/-- An identifier record (`idents` entry): name and flags. -/
structure Ident where
  name : String
  readonly : Bool
  global : Bool
deriving DecidableEq

/-- The read-only parts of the bytecode image the error path consults:
the code stream, function names, specialized idents, idents, and the
type table. -/
structure VMImage where
  code : List Int
  functionNames : List String
  specidents : List SpecIdent
  idents : List Ident
  typetable : List TypeInfo
deriving DecidableEq

/-- One stack-frame descriptor: offset of the function-header words in
the code stream, and the stack depth at entry.  The most recent frame
(`stackframes.back()`) is the list head. -/
structure ErrFrame where
  funstart : Nat
  spstart : Int
deriving DecidableEq

/-- External collaborators the error path calls but that live outside
the two source files: `RefToString`, `to_string_hex`,
`pool.pointer_is_in_allocator`, `Value::ToString` and `StructToString`.
All theorems hold for every choice of these functions (the model of
executions in which none of them itself raises; claim C8's model covers
the raising case). -/
structure ErrExterns where
  refToString : Value → String
  valueHex : Value → String
  isInAllocator : Value → Bool
  valToString : Value → TypeInfo → String
  structToString : List Value → TypeInfo → String

/-- The function header as the Error loop re-reads it at `funstart`:
`deffun, nargs, args..., ndef, defs..., nkeepvars` (vm.cpp 290-305; the
loop skips over the owned-vars count without consulting the list, so
`owned` is left empty here). -/
def parseFunHeader (code : List Int) (fs : Nat) : FunHeader :=
  let deffun := code.getD fs 0
  let nargs := (code.getD (fs + 1) 0).toNat
  let args := ((code.drop (fs + 2)).take nargs).map Int.toNat
  let ndef := (code.getD (fs + 2 + nargs) 0).toNat
  let defs := ((code.drop (fs + 3 + nargs)).take ndef).map Int.toNat
  let nkeep := (code.getD (fs + 3 + nargs + ndef) 0).toNat
  { funid := deffun, args := args, defs := defs, nkeep := nkeep, owned := [] }

/-- `VM::DumpVar`: appends "\n   name = value" for one variable (or a
struct's cells) unless the ident is a global readonly let or (under RTT)
its static type does not match the runtime tag; returns the new buffer
and the number of variable slots consumed (1, or the struct length). -/
def dumpVar (img : VMImage) (ext : ErrExterns) (rtt : Bool) (vars : Nat → Value)
    (sd : String) (idx : Nat) : String × Nat :=
  let sid := img.specidents.getD idx { typeidx := 0, ididx := 0 }
  let id := img.idents.getD sid.ididx { name := "", readonly := false, global := false }
  if id.readonly && id.global then (sd, 1)
  else
    let ti := img.typetable.getD sid.typeidx defaultTypeInfo
    if rtt ∧ ti.t ≠ valueType (vars idx) then (sd, 1)
    else
      let sd := sd ++ "\n   " ++ id.name ++ " = "
      if IsStruct ti.t then
        (sd ++ ext.structToString ((List.range ti.len).map (fun j => vars (idx + j))) ti, ti.len)
      else
        (sd ++ ext.valToString (vars idx) ti, 1)

/-- The backwards var-dump loop `for (j = 0; j < n; ) { i = *(ptr - j -
1); j += DumpVar(...); }`.  The fuel (supplied as the list length)
bounds iterations; DumpVar's step is positive for well-formed images
(C++ itself would loop forever on a zero-length struct var). -/
def dumpVarsLoop (img : VMImage) (ext : ErrExterns) (rtt : Bool) (vars : Nat → Value)
    (idxs : List Nat) : Nat → Nat → String → String
  | 0, _, sd => sd
  | fuel + 1, j, sd =>
    if j < idxs.length then
      let i := idxs.getD (idxs.length - 1 - j) 0
      let r := dumpVar img ext rtt vars sd i
      dumpVarsLoop img ext rtt vars idxs fuel (j + r.2) r.1
    else sd

/-- The pre-trace loop of `VM::Error` popping non-frame stack content,
one "\n   stack:" line per cell (with a tentative ref rendering when the
cell's bits point into the allocator); runs until the stack is empty
(sp < 0) or sp has come down to the top frame's entry depth.  The fuel
is supplied as sp+1, enough for every iteration the C++ loop makes. -/
def errorStackDump (ext : ErrExterns) (topSpstart : Option Int) (stack : List Value) :
    Nat → Int → String → String × Int
  | 0, sp, sd => (sd, sp)
  | fuel + 1, sp, sd =>
    if 0 ≤ sp ∧ (topSpstart = none ∨ ¬ topSpstart = some sp) then
      let x := stack.getD sp.toNat Value.nil
      let sd := sd ++ "\n   stack: " ++ ext.valueHex x
      let sd := if ext.isInAllocator x then sd ++ ", maybe: " ++ ext.refToString x else sd
      errorStackDump ext topSpstart stack fuel (sp - 1) sd
    else (sd, sp)

/-- `vars[i] = Pop(sp)` loops at absolute stack offsets (the index list
is supplied in popping order, i.e. reversed header order). -/
def popVarsAbs : List Nat → (Nat → Value) → List Value → Int → ((Nat → Value) × Int)
  | [], v, _, sp => (v, sp)
  | i :: rest, v, stack, sp =>
    popVarsAbs rest (upd v i (stack.getD sp.toNat Value.nil)) stack (sp - 1)

/-- The per-frame trace line: "\nin function: <name>" when the header's
function id is non-negative, else "\nin block". -/
def frameLine (img : VMImage) (f : ErrFrame) : String :=
  if 0 ≤ img.code.getD f.funstart 0 then
    "\nin function: " ++ img.functionNames.getD (img.code.getD f.funstart 0).toNat ""
  else "\nin block"

/-- The frame loop of `VM::Error` (vm.cpp 288-329): for each active
frame, newest first: append the function/block line; while the message
is under 10000 chars dump the def vars then the arg vars (walking each
list backwards); step sp past the keep slots; pop the saved def then arg
cells back into the globals; discard the frame and continue at the next
frame's entry depth (or -1). -/
def errorFrames (img : VMImage) (ext : ErrExterns) (rtt : Bool) (stack : List Value) :
    List ErrFrame → (Nat → Value) → Int → String → String
  | [], _, _, sd => sd
  | stf :: rest, vars, sp, sd =>
    let sd1 := sd ++ frameLine img stf
    let h := parseFunHeader img.code stf.funstart
    let sd2 := if sd1.length < 10000 then
        dumpVarsLoop img ext rtt vars h.args h.args.length 0
          (dumpVarsLoop img ext rtt vars h.defs h.defs.length 0 sd1)
      else sd1
    let sp1 := sp - h.nkeep
    let rd := popVarsAbs h.defs.reverse vars stack sp1
    let ra := popVarsAbs h.args.reverse rd.1 stack rd.2
    let sp2 : Int := match rest with
      | [] => -1
      | f :: _ => f.spstart
    errorFrames img ext rtt stack rest ra.1 sp2 sd2

/-- `VM::IDXErr`: the message "index <i> out of range <n> of: <ref>". -/
def idxErrMsg (ext : ErrExterns) (i n : Int) (v : Value) : String :=
  "index " ++ toString i ++ " out of range " ++ toString n ++ " of: " ++ ext.refToString v

/-- `VM::Error` on its default path (no prior error, trace mode not
TAIL-with-output): ErrorBase prepends "VM error: ", the non-frame stack
cells are dumped, then the frame loop appends one function/block line
per active frame plus variable dumps while unwinding; the final buffer
is what UnwindOnError reports. -/
def vmError (img : VMImage) (ext : ErrExterns) (rtt : Bool) (err : String)
    (vars : Nat → Value) (stack : List Value) (sp : Int) (frames : List ErrFrame) : String :=
  let sd := "VM error: " ++ err
  let r := errorStackDump ext (frames.head?.map (fun f => f.spstart)) stack (sp + 1).toNat sp sd
  errorFrames img ext rtt stack frames vars r.2 r.1

theorem dumpVar_append (img : VMImage) (ext : ErrExterns) (rtt : Bool) (vars : Nat → Value)
    (sd : String) (idx : Nat) :
    ∃ t, (dumpVar img ext rtt vars sd idx).1 = sd ++ t := by
  simp only [dumpVar]
  split
  · exact ⟨"", (String.append_empty sd).symm⟩
  · split
    · exact ⟨"", (String.append_empty sd).symm⟩
    · split
      · exact ⟨_, by rw [String.append_assoc, String.append_assoc, String.append_assoc]⟩
      · exact ⟨_, by rw [String.append_assoc, String.append_assoc, String.append_assoc]⟩

theorem dumpVarsLoop_append (img : VMImage) (ext : ErrExterns) (rtt : Bool)
    (vars : Nat → Value) (idxs : List Nat) (fuel : Nat) :
    ∀ (j : Nat) (sd : String), ∃ t, dumpVarsLoop img ext rtt vars idxs fuel j sd = sd ++ t := by
  induction fuel with
  | zero => intro j sd; exact ⟨"", (String.append_empty sd).symm⟩
  | succ m ih =>
    intro j sd
    simp only [dumpVarsLoop]
    split
    · obtain ⟨t1, ht1⟩ := dumpVar_append img ext rtt vars sd
        (idxs.getD (idxs.length - 1 - j) 0)
      obtain ⟨t2, ht2⟩ := ih (j + (dumpVar img ext rtt vars sd
        (idxs.getD (idxs.length - 1 - j) 0)).2)
        (dumpVar img ext rtt vars sd (idxs.getD (idxs.length - 1 - j) 0)).1
      exact ⟨t1 ++ t2, by rw [ht2, ht1, String.append_assoc]⟩
    · exact ⟨"", (String.append_empty sd).symm⟩

theorem errorStackDump_append (ext : ErrExterns) (topSpstart : Option Int)
    (stack : List Value) (fuel : Nat) :
    ∀ (sp : Int) (sd : String),
      ∃ t, (errorStackDump ext topSpstart stack fuel sp sd).1 = sd ++ t := by
  induction fuel with
  | zero => intro sp sd; exact ⟨"", (String.append_empty sd).symm⟩
  | succ m ih =>
    intro sp sd
    simp only [errorStackDump]
    split
    · split
      · obtain ⟨t, ht⟩ := ih (sp - 1)
          ((sd ++ "\n   stack: " ++ ext.valueHex (stack.getD sp.toNat Value.nil)) ++
            ", maybe: " ++ ext.refToString (stack.getD sp.toNat Value.nil))
        exact ⟨_, by
          rw [ht, String.append_assoc, String.append_assoc, String.append_assoc,
            String.append_assoc]⟩
      · obtain ⟨t, ht⟩ := ih (sp - 1)
          (sd ++ "\n   stack: " ++ ext.valueHex (stack.getD sp.toNat Value.nil))
        exact ⟨_, by rw [ht, String.append_assoc, String.append_assoc]⟩
    · exact ⟨"", (String.append_empty sd).symm⟩

theorem errorFrames_append (img : VMImage) (ext : ErrExterns) (rtt : Bool)
    (stack : List Value) (frames : List ErrFrame) :
    ∀ (vars : Nat → Value) (sp : Int) (sd : String),
      ∃ t, errorFrames img ext rtt stack frames vars sp sd = sd ++ t := by
  induction frames with
  | nil => intro vars sp sd; exact ⟨"", (String.append_empty sd).symm⟩
  | cons stf rest ih =>
    intro vars sp sd
    simp only [errorFrames]
    by_cases hdump : (sd ++ frameLine img stf).length < 10000
    · rw [if_pos hdump]
      obtain ⟨t1, ht1⟩ := dumpVarsLoop_append img ext rtt vars
        (parseFunHeader img.code stf.funstart).defs
        (parseFunHeader img.code stf.funstart).defs.length 0 (sd ++ frameLine img stf)
      obtain ⟨t2, ht2⟩ := dumpVarsLoop_append img ext rtt vars
        (parseFunHeader img.code stf.funstart).args
        (parseFunHeader img.code stf.funstart).args.length 0
        (dumpVarsLoop img ext rtt vars (parseFunHeader img.code stf.funstart).defs
          (parseFunHeader img.code stf.funstart).defs.length 0 (sd ++ frameLine img stf))
      obtain ⟨t3, ht3⟩ := ih _ _ (dumpVarsLoop img ext rtt vars
        (parseFunHeader img.code stf.funstart).args
        (parseFunHeader img.code stf.funstart).args.length 0
        (dumpVarsLoop img ext rtt vars (parseFunHeader img.code stf.funstart).defs
          (parseFunHeader img.code stf.funstart).defs.length 0 (sd ++ frameLine img stf)))
      refine ⟨frameLine img stf ++ (t1 ++ (t2 ++ t3)), ?_⟩
      rw [ht3, ht2, ht1, String.append_assoc, String.append_assoc, String.append_assoc]
    · rw [if_neg hdump]
      obtain ⟨t3, ht3⟩ := ih _ _ (sd ++ frameLine img stf)
      exact ⟨frameLine img stf ++ t3, by rw [ht3, String.append_assoc]⟩

theorem errorFrames_contains_line (img : VMImage) (ext : ErrExterns) (rtt : Bool)
    (stack : List Value) (frames : List ErrFrame) :
    ∀ (vars : Nat → Value) (sp : Int) (sd : String) (f : ErrFrame), f ∈ frames →
      ∃ a b, errorFrames img ext rtt stack frames vars sp sd = a ++ frameLine img f ++ b := by
  induction frames with
  | nil => intro vars sp sd f hf; simp at hf
  | cons stf rest ih =>
    intro vars sp sd f hf
    rcases List.mem_cons.mp hf with hf1 | hf2
    · subst hf1
      simp only [errorFrames]
      by_cases hdump : (sd ++ frameLine img f).length < 10000
      · rw [if_pos hdump]
        obtain ⟨t1, ht1⟩ := dumpVarsLoop_append img ext rtt vars
          (parseFunHeader img.code f.funstart).defs
          (parseFunHeader img.code f.funstart).defs.length 0 (sd ++ frameLine img f)
        obtain ⟨t2, ht2⟩ := dumpVarsLoop_append img ext rtt vars
          (parseFunHeader img.code f.funstart).args
          (parseFunHeader img.code f.funstart).args.length 0
          (dumpVarsLoop img ext rtt vars (parseFunHeader img.code f.funstart).defs
            (parseFunHeader img.code f.funstart).defs.length 0 (sd ++ frameLine img f))
        obtain ⟨t3, ht3⟩ := errorFrames_append img ext rtt stack rest _ _
          (dumpVarsLoop img ext rtt vars (parseFunHeader img.code f.funstart).args
            (parseFunHeader img.code f.funstart).args.length 0
            (dumpVarsLoop img ext rtt vars (parseFunHeader img.code f.funstart).defs
              (parseFunHeader img.code f.funstart).defs.length 0 (sd ++ frameLine img f)))
        refine ⟨sd, t1 ++ (t2 ++ t3), ?_⟩
        rw [ht3, ht2, ht1, String.append_assoc, String.append_assoc]
      · rw [if_neg hdump]
        obtain ⟨t3, ht3⟩ := errorFrames_append img ext rtt stack rest _ _ (sd ++ frameLine img f)
        exact ⟨sd, t3, by rw [ht3]⟩
    · simp only [errorFrames]
      split
      · exact ih _ _ _ f hf2
      · exact ih _ _ _ f hf2

/-- Claim C7: for an out-of-range access with index 5 on a vector of
length 3, the produced error message begins with "VM error: index 5 out
of range 3", and for each active stack frame it contains the line
"\nin function: <name>" (or "\nin block" for a nameless frame). -/
theorem c7_index_error_trace (img : VMImage) (ext : ErrExterns) (rtt : Bool)
    (vars : Nat → Value) (stack : List Value) (sp : Int) (frames : List ErrFrame)
    (v : Value) :
    (∃ t, vmError img ext rtt (idxErrMsg ext 5 3 v) vars stack sp frames =
      "VM error: index 5 out of range 3" ++ t) ∧
    (∀ f ∈ frames, ∃ a b,
      vmError img ext rtt (idxErrMsg ext 5 3 v) vars stack sp frames =
        a ++ frameLine img f ++ b) := by
  have hhead : "VM error: " ++ idxErrMsg ext 5 3 v =
      "VM error: index 5 out of range 3" ++ (" of: " ++ ext.refToString v) := by
    unfold idxErrMsg
    simp only [← String.append_assoc]
    rw [show ((("VM error: " ++ "index ") ++ toString (5 : Int)) ++ " out of range ") ++
        toString (3 : Int) = "VM error: index 5 out of range 3" by decide]
  constructor
  · obtain ⟨t1, ht1⟩ := errorStackDump_append ext (frames.head?.map (fun f => f.spstart))
      stack (sp + 1).toNat sp ("VM error: " ++ idxErrMsg ext 5 3 v)
    obtain ⟨t2, ht2⟩ := errorFrames_append img ext rtt stack frames vars
      (errorStackDump ext (frames.head?.map (fun f => f.spstart)) stack (sp + 1).toNat sp
        ("VM error: " ++ idxErrMsg ext 5 3 v)).2
      (errorStackDump ext (frames.head?.map (fun f => f.spstart)) stack (sp + 1).toNat sp
        ("VM error: " ++ idxErrMsg ext 5 3 v)).1
    refine ⟨(" of: " ++ ext.refToString v) ++ (t1 ++ t2), ?_⟩
    show errorFrames img ext rtt stack frames vars _ _ = _
    rw [ht2, ht1, hhead, String.append_assoc, String.append_assoc]
  · intro f hf
    exact errorFrames_contains_line img ext rtt stack frames vars _ _ f hf

end Lobster

namespace Lobster

/-- Concrete image for exercising the error trace: one frame whose
header is at code offset 0 with function id 2 ("g"), no args/defs/keeps. -/
def c7img : VMImage :=
  { code := [2, 0, 0, 0], functionNames := ["f0", "f1", "g"],
    specidents := [], idents := [], typetable := [] }

/-- Concrete externals for exercising the error trace. -/
def c7ext : ErrExterns :=
  { refToString := fun _ => "vec", valueHex := fun _ => "0x0",
    isInAllocator := fun _ => false, valToString := fun _ _ => "",
    structToString := fun _ _ => "" }

/-- Witness for C7 at a concrete image, externals and a single frame. -/
theorem c7_index_error_trace_witness :
    (({ funstart := 0, spstart := 0 } : ErrFrame) ∈
      [({ funstart := 0, spstart := 0 } : ErrFrame)]) ∧
    (∃ t, vmError c7img c7ext false (idxErrMsg c7ext 5 3 (Value.refV BaseType.V_VECTOR 7))
        (fun _ => Value.nil) [] (-1) [{ funstart := 0, spstart := 0 }] =
      "VM error: index 5 out of range 3" ++ t) ∧
    (∃ a b, vmError c7img c7ext false (idxErrMsg c7ext 5 3 (Value.refV BaseType.V_VECTOR 7))
        (fun _ => Value.nil) [] (-1) [{ funstart := 0, spstart := 0 }] =
      a ++ frameLine c7img { funstart := 0, spstart := 0 } ++ b) :=
  ⟨by decide,
   (c7_index_error_trace c7img c7ext false (fun _ => Value.nil) [] (-1)
      [{ funstart := 0, spstart := 0 }] (Value.refV BaseType.V_VECTOR 7)).1,
   (c7_index_error_trace c7img c7ext false (fun _ => Value.nil) [] (-1)
      [{ funstart := 0, spstart := 0 }] (Value.refV BaseType.V_VECTOR 7)).2
     { funstart := 0, spstart := 0 } (by decide)⟩

/-! ## Recursive error containment (vm.cpp ErrorBase 253-268, catch at
330-335) -/

/-- `VM::Error` with the trace-building try-block abstracted:
`buildTrace` stands for the stack dump and frame loop, whose external
calls may themselves raise.  A nested error reaching `ErrorBase` with
`error_has_occured` already set executes `errmsg = err;
UnwindOnError();` — the errmsg field is overwritten with the nested
message and that same string is thrown — modelled as `Except.error err`.
The catch in the original Error then appends "\nRECURSIVE ERROR:\n" and
the caught string to the errmsg field (which at that point holds the
nested message), and UnwindOnError reports the field. -/
def errorWithCatch (err : String) (buildTrace : String → Except String String) : String :=
  match buildTrace ("VM error: " ++ err) with
  | Except.ok m => m
  | Except.error s => s ++ "\nRECURSIVE ERROR:\n" ++ s

/-- Claim C8 counterexample: when trace building raises a nested error
"boom" for the original error "idx…", the reported message is
"boom\nRECURSIVE ERROR:\nboom" — the nested message is not appended to
the original error message; ErrorBase's recursive branch (`errmsg =
err`) has overwritten the accumulated original message, which is absent
from the output. -/
theorem c8_recursive_error_counterexample :
    errorWithCatch "index 5 out of range 3" (fun _ => Except.error "boom") =
      "boom" ++ "\nRECURSIVE ERROR:\n" ++ "boom" ∧
    String.isPrefixOf "VM error: index 5 out of range 3"
      (errorWithCatch "index 5 out of range 3" (fun _ => Except.error "boom")) = false := by
  constructor
  · rfl
  · decide

/-- Claim C8 as amended: a nested error raised while Error builds a
stack trace is caught rather than aborting the error report, and
unwinding still proceeds through the single unwind point; but trace
construction stops, and the nested message is appended — prefixed by
"\nRECURSIVE ERROR:\n" — to the errmsg buffer that ErrorBase's recursive
branch has just overwritten with that same nested message, so the
reported message is nested ++ marker ++ nested and the original message
is lost.  When no nested error occurs the built trace is reported
unchanged. -/
theorem c8_recursive_error_amended :
    (∀ (err s : String) (bt : String → Except String String),
      bt ("VM error: " ++ err) = Except.error s →
      errorWithCatch err bt = s ++ "\nRECURSIVE ERROR:\n" ++ s) ∧
    (∀ (err m : String) (bt : String → Except String String),
      bt ("VM error: " ++ err) = Except.ok m →
      errorWithCatch err bt = m) := by
  constructor
  · intro err s bt hbt
    unfold errorWithCatch
    rw [hbt]
  · intro err m bt hbt
    unfold errorWithCatch
    rw [hbt]

/-- Witness for C8 (amended): a trace builder that always raises "x". -/
theorem c8_recursive_error_amended_witness :
    ((fun _ => Except.error "x" : String → Except String String) ("VM error: " ++ "e") =
      Except.error "x") ∧
    errorWithCatch "e" (fun _ => Except.error "x") = "x" ++ "\nRECURSIVE ERROR:\n" ++ "x" :=
  ⟨rfl, c8_recursive_error_amended.1 "e" "x" (fun _ => Except.error "x") rfl⟩

end Lobster
